import Mathlib

/-!
Verification of the color-science core of the Color-Detection repository
(src/core/color_converter.py, src/core/color_matcher.py,
src/core/color_detector.py).

Modelling conventions:
* Python ints are `ℕ`/`ℤ`; Python floats are idealized as exact rationals
  (`ℚ`), except that the Euclidean distance returned by the KD-tree query
  in color_matcher.py is a square root and is idealized as a real number.
* Python strings are modelled as `List Char` (hex strings) or `String`
  (names and keys).
* `int(x)` on a float is truncation toward zero (`pyTrunc`);
  `round(x, 1)` is Python's banker's rounding to one decimal (`pyRound1`).
* Fallible code returns `Option`/`Except`.
-/

/-- Python `int(x)` applied to a number: truncation toward zero. -/
def pyTrunc (q : ℚ) : ℤ :=
  if 0 ≤ q then ⌊q⌋ else -⌊-q⌋

/-- Round to the nearest integer, ties to the nearest even integer
(CPython's rounding rule for `round`). -/
def roundHalfEven (q : ℚ) : ℤ :=
  if Int.fract q = 1/2 then
    (if ⌊q⌋ % 2 = 0 then ⌊q⌋ else ⌊q⌋ + 1)
  else ⌊q + 1/2⌋

/-- Python `round(x, 1)`: round to one decimal digit, ties to even. -/
def pyRound1 (q : ℚ) : ℚ :=
  (roundHalfEven (10 * q) : ℚ) / 10

/-! ## color_converter.py : rgb_to_hex / hex_to_rgb -/

/-- One lowercase hexadecimal digit, as produced by Python's `"{:02x}"`
format. -/
def hexDigitChar (n : ℕ) : Char :=
  if n < 10 then Char.ofNat (48 + n) else Char.ofNat (87 + n)

/-- The two lowercase hex digits of a byte, `"{:02x}".format n`. -/
def toHexByte (n : ℕ) : List Char :=
  [hexDigitChar (n / 16), hexDigitChar (n % 16)]

/-- Python `str.upper` on a single character (ASCII case). -/
def pyUpperChar (c : Char) : Char :=
  if 'a' ≤ c ∧ c ≤ 'z' then Char.ofNat (c.toNat - 32) else c

/-- `rgb_to_hex(r, g, b)`: `f"#{r:02x}{g:02x}{b:02x}".upper()`. -/
def rgb_to_hex (r g b : ℕ) : List Char :=
  ('#' :: (toHexByte r ++ toHexByte g ++ toHexByte b)).map pyUpperChar

/-- The numeric value of one hexadecimal digit character (either case),
`none` on a non-digit. -/
def hexDigitVal (c : Char) : Option ℕ :=
  if '0' ≤ c ∧ c ≤ '9' then some (c.toNat - 48)
  else if 'a' ≤ c ∧ c ≤ 'f' then some (c.toNat - 87)
  else if 'A' ≤ c ∧ c ≤ 'F' then some (c.toNat - 55)
  else none

/-- Accumulating base-16 parse of a digit string. -/
def parseHexDigits : List Char → ℕ → Option ℕ
  | [], acc => some acc
  | c :: t, acc =>
    match hexDigitVal c with
    | none => none
    | some v => parseHexDigits t (16 * acc + v)

/-- Python `int(s, 16)` restricted to plain digit strings: fails on the
empty string or on any non-hex-digit character. -/
def parseHexNat (l : List Char) : Option ℕ :=
  if l.isEmpty then none else parseHexDigits l 0

/-- `hex_to_rgb(s)`: strip every leading `#`, expand a 3-digit shorthand
by duplicating each digit, then parse the character slices
`s[0:2]`, `s[2:4]`, `s[4:6]` as base-16 integers. -/
def hex_to_rgb (s : List Char) : Option (ℕ × ℕ × ℕ) := do
  let s1 := s.dropWhile (· = '#')
  let s2 := if s1.length = 3 then (s1.map (fun c => [c, c])).flatten else s1
  let r ← parseHexNat ((s2.drop 0).take 2)
  let g ← parseHexNat ((s2.drop 2).take 2)
  let b ← parseHexNat ((s2.drop 4).take 2)
  pure (r, g, b)

/-! ### Round-trip lemmas for C1 -/

lemma pyUpperChar_hash : pyUpperChar '#' = '#' := by decide

lemma hexDigitChar_upper_ne_hash (m : ℕ) (hm : m < 16) :
    pyUpperChar (hexDigitChar m) ≠ '#' := by
  interval_cases m <;> decide

lemma parse_hexByte (n : ℕ) (hn : n < 256) :
    parseHexNat [pyUpperChar (hexDigitChar (n / 16)),
      pyUpperChar (hexDigitChar (n % 16))] = some n := by
  have h1 : n / 16 < 16 := Nat.div_lt_of_lt_mul (by omega)
  have h2 : n % 16 < 16 := Nat.mod_lt _ (by omega)
  have hrep : n = 16 * (n / 16) + n % 16 := (Nat.div_add_mod n 16).symm
  have key : ∀ a, a < 16 → ∀ b, b < 16 →
      parseHexNat [pyUpperChar (hexDigitChar a),
        pyUpperChar (hexDigitChar b)] = some (16 * a + b) := by
    decide
  rw [key _ h1 _ h2, ← hrep]

/-- The shape of a `rgb_to_hex` output: a `#` followed by six uppercased
hex-digit characters. -/
lemma rgb_to_hex_eq (r g b : ℕ) :
    rgb_to_hex r g b = '#' ::
      ([hexDigitChar (r / 16), hexDigitChar (r % 16),
        hexDigitChar (g / 16), hexDigitChar (g % 16),
        hexDigitChar (b / 16), hexDigitChar (b % 16)].map pyUpperChar) := by
  rw [rgb_to_hex, toHexByte, toHexByte, toHexByte]
  simp [pyUpperChar_hash]

/-- Evaluation of `hex_to_rgb` on a `#`-prefixed six-character string of
parseable pairs. -/
lemma hex_to_rgb_glue (c1 c2 c3 c4 c5 c6 : Char) (h1 : c1 ≠ '#')
    (r g b : ℕ)
    (hp1 : parseHexNat [c1, c2] = some r)
    (hp2 : parseHexNat [c3, c4] = some g)
    (hp3 : parseHexNat [c5, c6] = some b) :
    hex_to_rgb ('#' :: [c1, c2, c3, c4, c5, c6]) = some (r, g, b) := by
  rw [hex_to_rgb]
  have hstrip : ('#' :: [c1, c2, c3, c4, c5, c6]).dropWhile (· = '#') =
      [c1, c2, c3, c4, c5, c6] := by
    rw [List.dropWhile_cons, List.dropWhile_cons]
    simp [h1]
  simp only [hstrip, List.length_cons, List.length_nil]
  norm_num
  rw [hp1, hp2, hp3]
  rfl

/-- C1: for every RGB triple with components in [0,255],
`hex_to_rgb (rgb_to_hex r g b) = some (r, g, b)`; moreover the hex string
is a `#`-prefixed 6-character string of uppercase hex digits. -/
theorem C1_hex_round_trip (r g b : ℕ)
    (hr : r ≤ 255) (hg : g ≤ 255) (hb : b ≤ 255) :
    hex_to_rgb (rgb_to_hex r g b) = some (r, g, b) ∧
    (rgb_to_hex r g b).length = 7 ∧
    (rgb_to_hex r g b).head? = some '#' ∧
    ∀ c ∈ (rgb_to_hex r g b).tail,
      ('0' ≤ c ∧ c ≤ '9') ∨ ('A' ≤ c ∧ c ≤ 'F') := by
  have hr' : r < 256 := by omega
  have hg' : g < 256 := by omega
  have hb' : b < 256 := by omega
  have hdigit : ∀ m : ℕ, m < 16 →
      ('0' ≤ pyUpperChar (hexDigitChar m) ∧ pyUpperChar (hexDigitChar m) ≤ '9') ∨
      ('A' ≤ pyUpperChar (hexDigitChar m) ∧ pyUpperChar (hexDigitChar m) ≤ 'F') := by
    decide
  have hdr1 : r / 16 < 16 := Nat.div_lt_of_lt_mul (by omega)
  have hdr2 : r % 16 < 16 := Nat.mod_lt _ (by omega)
  have hdg1 : g / 16 < 16 := Nat.div_lt_of_lt_mul (by omega)
  have hdg2 : g % 16 < 16 := Nat.mod_lt _ (by omega)
  have hdb1 : b / 16 < 16 := Nat.div_lt_of_lt_mul (by omega)
  have hdb2 : b % 16 < 16 := Nat.mod_lt _ (by omega)
  refine ⟨?_, ?_, ?_, ?_⟩
  · rw [rgb_to_hex_eq]
    simp only [List.map_cons, List.map_nil]
    exact hex_to_rgb_glue _ _ _ _ _ _
      (hexDigitChar_upper_ne_hash (r / 16) hdr1) r g b
      (parse_hexByte r hr') (parse_hexByte g hg') (parse_hexByte b hb')
  · rw [rgb_to_hex_eq]; rfl
  · rw [rgb_to_hex_eq]; rfl
  · rw [rgb_to_hex_eq]
    simp only [List.map_cons, List.map_nil, List.tail_cons, List.mem_cons,
      List.not_mem_nil, or_false]
    rintro c (rfl | rfl | rfl | rfl | rfl | rfl)
    · exact hdigit _ hdr1
    · exact hdigit _ hdr2
    · exact hdigit _ hdg1
    · exact hdigit _ hdg2
    · exact hdigit _ hdb1
    · exact hdigit _ hdb2

/-- Witness for C1 at the concrete triple (255, 165, 0) (orange,
`#FFA500`). -/
theorem C1_hex_round_trip_witness :
    hex_to_rgb (rgb_to_hex 255 165 0) = some (255, 165, 0) :=
  (C1_hex_round_trip 255 165 0 (by decide) (by decide) (by decide)).1

/-! ## color_converter.py : get_wcag_rating -/

/-- `get_wcag_rating(contrast_ratio)` from color_converter.py. -/
def get_wcag_rating (q : ℚ) : String :=
  if 7 ≤ q then "AAA (Excellent)"
  else if 4.5 ≤ q then "AA (Good)"
  else if 3 ≤ q then "AA Large (Acceptable)"
  else "Fail (Poor)"

/-- Counterexample to C5: the function never returns the bare string
`"AAA"`; at the threshold 7.0 it returns `"AAA (Excellent)"`. -/
theorem C5_wcag_counterexample :
    get_wcag_rating 7 ≠ "AAA" ∧ get_wcag_rating 7 = "AAA (Excellent)" := by
  constructor
  · decide
  · rfl

/-- C5 (amended): the threshold structure is as claimed, with inclusive
lower bounds, but the returned labels are the decorated strings
`"AAA (Excellent)"`, `"AA (Good)"`, `"AA Large (Acceptable)"`,
`"Fail (Poor)"` rather than the spec's bare `"AAA"`/`"AA"`/
`"AA Large"`/`"Fail"`. -/
theorem C5_wcag_rating_thresholds (q : ℚ) :
    (get_wcag_rating q = "AAA (Excellent)" ↔ 7 ≤ q) ∧
    (get_wcag_rating q = "AA (Good)" ↔ 4.5 ≤ q ∧ q < 7) ∧
    (get_wcag_rating q = "AA Large (Acceptable)" ↔ 3 ≤ q ∧ q < 4.5) ∧
    (get_wcag_rating q = "Fail (Poor)" ↔ q < 3) := by
  unfold get_wcag_rating
  split_ifs with h1 h2 h3
  · exact ⟨iff_of_true rfl h1,
      iff_of_false (by decide) (fun h => absurd h1 (not_le.mpr h.2)),
      iff_of_false (by decide) (fun h => absurd h1 (not_le.mpr (by linarith [h.2]))),
      iff_of_false (by decide) (not_lt.mpr (by linarith))⟩
  · exact ⟨iff_of_false (by decide) h1,
      iff_of_true rfl ⟨h2, not_le.mp h1⟩,
      iff_of_false (by decide) (fun h => absurd h2 (not_le.mpr h.2)),
      iff_of_false (by decide) (not_lt.mpr (by linarith))⟩
  · exact ⟨iff_of_false (by decide) h1,
      iff_of_false (by decide) (fun h => absurd h.1 h2),
      iff_of_true rfl ⟨h3, not_le.mp h2⟩,
      iff_of_false (by decide) (not_lt.mpr h3)⟩
  · exact ⟨iff_of_false (by decide) h1,
      iff_of_false (by decide) (fun h => absurd h.1 h2),
      iff_of_false (by decide) (fun h => absurd h.1 h3),
      iff_of_true rfl (not_le.mp h3)⟩

/-! ## color_converter.py : simulate_color_blindness -/

/-- The `COLOR_BLINDNESS_MATRICES` dictionary: lookup of the fixed 3x3
transform matrix by type name, `none` when the key is absent. -/
def COLOR_BLINDNESS_MATRICES (t : String) :
    Option ((ℚ × ℚ × ℚ) × (ℚ × ℚ × ℚ) × (ℚ × ℚ × ℚ)) :=
  if t = "protanopia" then
    some ((0.567, 0.433, 0), (0.558, 0.442, 0), (0, 0.242, 0.758))
  else if t = "deuteranopia" then
    some ((0.625, 0.375, 0), (0.7, 0.3, 0), (0, 0.3, 0.7))
  else if t = "tritanopia" then
    some ((0.95, 0.05, 0), (0, 0.433, 0.567), (0, 0.475, 0.525))
  else if t = "achromatopsia" then
    some ((0.299, 0.587, 0.114), (0.299, 0.587, 0.114), (0.299, 0.587, 0.114))
  else none

/-- `int(min(255, max(0, v)))` applied to one output channel. -/
def clampChannel (q : ℚ) : ℕ :=
  (pyTrunc (min 255 (max 0 q))).toNat

/-- `simulate_color_blindness(r, g, b, blindness_type)`. -/
def simulate_color_blindness (r g b : ℕ) (t : String) : ℕ × ℕ × ℕ :=
  match COLOR_BLINDNESS_MATRICES t with
  | none => (r, g, b)
  | some ((m00, m01, m02), (m10, m11, m12), (m20, m21, m22)) =>
    (clampChannel (m00 * r + m01 * g + m02 * b),
     clampChannel (m10 * r + m11 * g + m12 * b),
     clampChannel (m20 * r + m21 * g + m22 * b))

lemma clampChannel_le (q : ℚ) : clampChannel q ≤ 255 := by
  unfold clampChannel pyTrunc
  have h0 : (0 : ℚ) ≤ min 255 (max 0 q) :=
    le_min (by norm_num) (le_max_left 0 q)
  rw [if_pos h0]
  have hfl : ⌊min 255 (max 0 q)⌋ ≤ ⌊(255 : ℚ)⌋ :=
    Int.floor_le_floor (min_le_left _ _)
  have h255 : ⌊(255 : ℚ)⌋ = 255 := by norm_num
  omega

/-- C7: for components in [0,255] and any type string, every output
channel of `simulate_color_blindness` is a natural number at most 255
(hence an integer in [0,255]). -/
theorem C7_simulate_clamped (r g b : ℕ) (t : String)
    (hr : r ≤ 255) (hg : g ≤ 255) (hb : b ≤ 255) :
    (simulate_color_blindness r g b t).1 ≤ 255 ∧
    (simulate_color_blindness r g b t).2.1 ≤ 255 ∧
    (simulate_color_blindness r g b t).2.2 ≤ 255 := by
  unfold simulate_color_blindness
  rcases h : COLOR_BLINDNESS_MATRICES t with _ |
    ⟨⟨m00, m01, m02⟩, ⟨m10, m11, m12⟩, ⟨m20, m21, m22⟩⟩
  · exact ⟨hr, hg, hb⟩
  · exact ⟨clampChannel_le _, clampChannel_le _, clampChannel_le _⟩

/-- Witness for C7 at the boundary input (255,255,255) with type
`protanopia`. -/
theorem C7_simulate_clamped_witness :
    (simulate_color_blindness 255 255 255 "protanopia").1 ≤ 255 ∧
    (simulate_color_blindness 255 255 255 "protanopia").2.1 ≤ 255 ∧
    (simulate_color_blindness 255 255 255 "protanopia").2.2 ≤ 255 :=
  C7_simulate_clamped 255 255 255 "protanopia"
    (by decide) (by decide) (by decide)

/-- C8: on a type string other than the four known ones,
`simulate_color_blindness` returns its input unchanged (total, no
error and no absent value). -/
theorem C8_simulate_unknown_identity (r g b : ℕ) (t : String)
    (h1 : t ≠ "protanopia") (h2 : t ≠ "deuteranopia")
    (h3 : t ≠ "tritanopia") (h4 : t ≠ "achromatopsia") :
    simulate_color_blindness r g b t = (r, g, b) := by
  unfold simulate_color_blindness COLOR_BLINDNESS_MATRICES
  rw [if_neg h1, if_neg h2, if_neg h3, if_neg h4]

/-- Witness for C8 at the unknown type string `"monochrome"`. -/
theorem C8_simulate_unknown_identity_witness :
    simulate_color_blindness 10 20 30 "monochrome" = (10, 20, 30) :=
  C8_simulate_unknown_identity 10 20 30 "monochrome"
    (by decide) (by decide) (by decide) (by decide)

/-! ## color_matcher.py : palette loading and fallback -/

/-- One palette entry `{name, rgb, hex}`. -/
structure NamedColor where
  name : String
  rgb : ℕ × ℕ × ℕ
  hex : String
deriving DecidableEq

/-- The built-in fallback palette of `_use_fallback_colors`, in source
order. -/
def fallback_colors : List NamedColor :=
  [⟨"Black", (0, 0, 0), "#000000"⟩,
   ⟨"White", (255, 255, 255), "#FFFFFF"⟩,
   ⟨"Red", (255, 0, 0), "#FF0000"⟩,
   ⟨"Green", (0, 255, 0), "#00FF00"⟩,
   ⟨"Blue", (0, 0, 255), "#0000FF"⟩,
   ⟨"Yellow", (255, 255, 0), "#FFFF00"⟩,
   ⟨"Cyan", (0, 255, 255), "#00FFFF"⟩,
   ⟨"Magenta", (255, 0, 255), "#FF00FF"⟩,
   ⟨"Gray", (128, 128, 128), "#808080"⟩,
   ⟨"Orange", (255, 165, 0), "#FFA500"⟩,
   ⟨"Purple", (128, 0, 128), "#800080"⟩,
   ⟨"Pink", (255, 192, 203), "#FFC0CB"⟩,
   ⟨"Brown", (165, 42, 42), "#A52A2A"⟩]

/-- The possible outcomes of opening and parsing the colors.json data
source: the file is absent (`FileNotFoundError`), reading or parsing
fails with some other exception (`OSError`, `json.JSONDecodeError`,
`KeyError` on a missing `colors` field, ...), or a list of entries is
obtained. -/
inductive ReadOutcome where
  | fileNotFound
  | otherFailure (msg : String)
  | success (entries : List NamedColor)

/-- `ColorMatcher._load_colors`: the `try` block catches only
`FileNotFoundError` (substituting the fallback palette); every other
exception escapes the constructor. -/
def load_colors : ReadOutcome → Except String (List NamedColor)
  | .fileNotFound => .ok fallback_colors
  | .otherFailure msg => .error msg
  | .success entries => .ok entries

/-- Counterexample to C4: a data source that fails with a JSON parse
error (a loading failure) makes construction propagate the error instead
of falling back. -/
theorem C4_load_counterexample :
    load_colors (ReadOutcome.otherFailure "JSONDecodeError") =
      Except.error "JSONDecodeError" := rfl

/-- C4 (amended): only a missing file (`FileNotFoundError`) triggers the
fallback, in which case construction completes normally with exactly the
13 built-in entries Black..Brown in that order; any other loading
failure propagates out of the constructor. -/
theorem C4_load_fallback :
    load_colors ReadOutcome.fileNotFound = Except.ok fallback_colors ∧
    fallback_colors.length = 13 ∧
    fallback_colors.map (fun c => c.name) =
      ["Black", "White", "Red", "Green", "Blue", "Yellow", "Cyan",
       "Magenta", "Gray", "Orange", "Purple", "Pink", "Brown"] ∧
    (∀ msg, load_colors (ReadOutcome.otherFailure msg) = Except.error msg) := by
  exact ⟨rfl, rfl, rfl, fun _ => rfl⟩

/-! ## color_matcher.py : find_closest_color -/

/-- Squared Euclidean distance between two RGB triples. -/
def sqDist (p q : ℕ × ℕ × ℕ) : ℤ :=
  ((p.1 : ℤ) - q.1) ^ 2 + ((p.2.1 : ℤ) - q.2.1) ^ 2 +
    ((p.2.2 : ℤ) - q.2.2) ^ 2

/-- Scan of the palette keeping the current best entry and its squared
distance; a strict comparison keeps the first occurrence on ties, the
tie rule documented for the KD-tree query. -/
def pickNearestAux (q : ℕ × ℕ × ℕ) :
    List NamedColor → NamedColor → ℤ → NamedColor × ℤ
  | [], best, bestD => (best, bestD)
  | c :: t, best, bestD =>
    if sqDist c.rgb q < bestD then pickNearestAux q t c (sqDist c.rgb q)
    else pickNearestAux q t best bestD

/-- The nearest palette entry and its squared distance (`tree.query`
with k = 1).  On an empty palette (where the source's KD-tree
construction would already have failed) a dummy entry is returned. -/
def pickNearest (q : ℕ × ℕ × ℕ) (l : List NamedColor) : NamedColor × ℤ :=
  match l with
  | [] => (⟨"", (0, 0, 0), ""⟩, 0)
  | c :: t => pickNearestAux q t c (sqDist c.rgb q)

/-- Banker's rounding on the reals (CPython `round` on the idealized
value). -/
noncomputable def roundHalfEvenR (y : ℝ) : ℤ :=
  if Int.fract y = 1/2 then
    (if ⌊y⌋ % 2 = 0 then ⌊y⌋ else ⌊y⌋ + 1)
  else ⌊y + 1/2⌋

/-- Python `round(x, 1)` on the reals. -/
noncomputable def pyRound1R (x : ℝ) : ℝ :=
  (roundHalfEvenR (10 * x) : ℝ) / 10

/-- The dictionary returned by `ColorMatcher.find_closest_color`. -/
structure MatchResult where
  name : String
  hex : String
  rgb : ℕ × ℕ × ℕ
  input_rgb : ℕ × ℕ × ℕ
  distance : ℝ
  confidence : ℝ

/-- `ColorMatcher.find_closest_color(r, g, b)`: nearest entry by
Euclidean distance, confidence `round(max(0, 1 - d/441.67) * 100, 1)`. -/
noncomputable def find_closest_color
    (palette : List NamedColor) (r g b : ℕ) : MatchResult :=
  let best := pickNearest (r, g, b) palette
  let dist : ℝ := Real.sqrt (best.2 : ℝ)
  ⟨best.1.name, best.1.hex, best.1.rgb, (r, g, b), dist,
    pyRound1R (max 0 (1 - dist / (44167 / 100)) * 100)⟩

lemma sqDist_nonneg (p q : ℕ × ℕ × ℕ) : 0 ≤ sqDist p q := by
  unfold sqDist
  positivity

lemma pickNearestAux_le (q : ℕ × ℕ × ℕ) (l : List NamedColor)
    (best : NamedColor) (bestD : ℤ) :
    (pickNearestAux q l best bestD).2 ≤ bestD ∧
    ∀ c ∈ l, (pickNearestAux q l best bestD).2 ≤ sqDist c.rgb q := by
  induction l generalizing best bestD with
  | nil => exact ⟨le_refl _, fun c hc => absurd hc (List.not_mem_nil c)⟩
  | cons a t ih =>
    rw [pickNearestAux]
    split_ifs with h
    · obtain ⟨h1, h2⟩ := ih a (sqDist a.rgb q)
      refine ⟨le_of_lt (lt_of_le_of_lt h1 h), fun c hc => ?_⟩
      rcases List.mem_cons.mp hc with rfl | hc
      · exact h1
      · exact h2 c hc
    · obtain ⟨h1, h2⟩ := ih best bestD
      refine ⟨h1, fun c hc => ?_⟩
      rcases List.mem_cons.mp hc with rfl | hc
      · exact le_trans h1 (not_lt.mp h)
      · exact h2 c hc

lemma pickNearest_le (q : ℕ × ℕ × ℕ) (l : List NamedColor) :
    ∀ c ∈ l, (pickNearest q l).2 ≤ sqDist c.rgb q := by
  cases l with
  | nil => exact fun c hc => absurd hc (List.not_mem_nil c)
  | cons a t =>
    intro c hc
    rw [pickNearest]
    rcases List.mem_cons.mp hc with h | h
    · rw [h]
      exact (pickNearestAux_le q t a (sqDist a.rgb q)).1
    · exact (pickNearestAux_le q t a (sqDist a.rgb q)).2 c h

lemma pickNearestAux_nonneg (q : ℕ × ℕ × ℕ) (l : List NamedColor)
    (best : NamedColor) (bestD : ℤ) (h0 : 0 ≤ bestD) :
    0 ≤ (pickNearestAux q l best bestD).2 := by
  induction l generalizing best bestD with
  | nil => exact h0
  | cons a t ih =>
    rw [pickNearestAux]
    split_ifs with h
    · exact ih a _ (sqDist_nonneg _ _)
    · exact ih best bestD h0

lemma pickNearest_nonneg (q : ℕ × ℕ × ℕ) (l : List NamedColor) :
    0 ≤ (pickNearest q l).2 := by
  cases l with
  | nil => exact le_refl 0
  | cons a t => exact pickNearestAux_nonneg q t a _ (sqDist_nonneg _ _)

lemma pyRound1R_hundred : pyRound1R 100 = 100 := by
  unfold pyRound1R roundHalfEvenR
  have h1 : (10 : ℝ) * 100 = 1000 := by norm_num
  rw [h1]
  have h2 : Int.fract (1000 : ℝ) ≠ 1/2 := by
    rw [Int.fract]
    norm_num
  rw [if_neg h2]
  have h3 : ⌊(1000 : ℝ) + 1/2⌋ = 1000 := by
    rw [show (1000 : ℝ) + 1/2 = 2001/2 by norm_num]
    norm_num
  rw [h3]
  norm_num

/-- Counterexample to C6: at query (1,0,0) on the fallback palette the
returned confidence is the 1-decimal rounded value 99.8, not the
claim's unrounded `max(0, 1 - d/441.67) * 100` = 99.7735...; the claim
omits the rounding that `find_closest_color` applies. -/
theorem C6_confidence_counterexample :
    (find_closest_color fallback_colors 1 0 0).confidence ≠
      max 0 (1 - (find_closest_color fallback_colors 1 0 0).distance /
        (44167 / 100)) * 100 := by
  have hd : (find_closest_color fallback_colors 1 0 0).distance = 1 := by
    have hp : (pickNearest (1, 0, 0) fallback_colors).2 = 1 := by decide
    show Real.sqrt (((pickNearest (1, 0, 0) fallback_colors).2 : ℤ) : ℝ) = 1
    rw [hp]
    simp
  have hrfl : (find_closest_color fallback_colors 1 0 0).confidence =
      pyRound1R (max 0 (1 - (find_closest_color fallback_colors 1 0 0).distance /
        (44167 / 100)) * 100) := rfl
  rw [hrfl, hd]
  have hmax : max (0 : ℝ) (1 - 1 / (44167 / 100)) * 100 = 4406700 / 44167 := by
    rw [max_eq_right (by norm_num)]
    norm_num
  rw [hmax]
  have hval : pyRound1R (4406700 / 44167 : ℝ) = 499 / 5 := by
    unfold pyRound1R roundHalfEvenR
    have h10 : (10 : ℝ) * (4406700 / 44167) = 44067000 / 44167 := by norm_num
    rw [h10]
    have hfl : ⌊(44067000 / 44167 : ℝ)⌋ = 997 := by
      rw [Int.floor_eq_iff]
      norm_num
    have hfr : Int.fract (44067000 / 44167 : ℝ) ≠ 1 / 2 := by
      rw [Int.fract, hfl]
      norm_num
    rw [if_neg hfr]
    have hfl2 : ⌊(44067000 / 44167 : ℝ) + 1 / 2⌋ = 998 := by
      rw [Int.floor_eq_iff]
      norm_num
    rw [hfl2]
    norm_num
  rw [hval]
  norm_num

/-- C6 (amended): the distance is nonnegative; the confidence equals
`round(max(0, 1 - distance/441.67) * 100, 1)` — the claim's formula
followed by rounding to one decimal — with 441.67 a constant
independent of the palette; a palette entry with RGB (0,0,0) queried at
(0,0,0) yields distance 0 and confidence 100; and on the fallback
palette the query (0,0,0) returns the entry named Black. -/
theorem C6_match_confidence (palette : List NamedColor) (r g b : ℕ) :
    0 ≤ (find_closest_color palette r g b).distance ∧
    (find_closest_color palette r g b).confidence =
      pyRound1R (max 0 (1 - (find_closest_color palette r g b).distance /
        (44167 / 100)) * 100) ∧
    ((∃ e ∈ palette, e.rgb = (0, 0, 0)) → r = 0 → g = 0 → b = 0 →
      (find_closest_color palette r g b).distance = 0 ∧
      (find_closest_color palette r g b).confidence = 100) ∧
    (find_closest_color fallback_colors 0 0 0).name = "Black" := by
  refine ⟨Real.sqrt_nonneg _, rfl, ?_, rfl⟩
  rintro ⟨e, he, hrgb⟩ rfl rfl rfl
  have hle : (pickNearest (0, 0, 0) palette).2 ≤ 0 := by
    have := pickNearest_le (0, 0, 0) palette e he
    rwa [hrgb, show sqDist (0, 0, 0) (0, 0, 0) = 0 from rfl] at this
  have hz : (pickNearest (0, 0, 0) palette).2 = 0 :=
    le_antisymm hle (pickNearest_nonneg _ _)
  have hd : (find_closest_color palette 0 0 0).distance = 0 := by
    show Real.sqrt (((pickNearest (0, 0, 0) palette).2 : ℤ) : ℝ) = 0
    rw [hz]
    simp
  refine ⟨hd, ?_⟩
  have hrfl : (find_closest_color palette 0 0 0).confidence =
      pyRound1R (max 0 (1 - (find_closest_color palette 0 0 0).distance /
        (44167 / 100)) * 100) := rfl
  rw [hrfl, hd]
  have : max (0 : ℝ) (1 - 0 / (44167 / 100)) * 100 = 100 := by
    rw [max_eq_right (by norm_num)]
    norm_num
  rw [this, pyRound1R_hundred]

/-- Witness for C6 on the fallback palette at the query (0,0,0). -/
theorem C6_match_confidence_witness :
    (find_closest_color fallback_colors 0 0 0).distance = 0 ∧
    (find_closest_color fallback_colors 0 0 0).confidence = 100 :=
  (C6_match_confidence fallback_colors 0 0 0).2.2.1
    (by decide) rfl rfl rfl

/-! ## color_converter.py : HSV / HSL / CMYK conversions

The float arithmetic of Python's colorsys module is idealized as exact
rational arithmetic; `int()` is `pyTrunc`, `% 1.0` on a float is
`Int.fract`. -/

/-- `colorsys.rgb_to_hsv` on [0,1]-normalized channels. -/
def colorsysRgbToHsv (r g b : ℚ) : ℚ × ℚ × ℚ :=
  let maxc := max r (max g b)
  let minc := min r (min g b)
  let v := maxc
  if minc = maxc then (0, 0, v)
  else
    let s := (maxc - minc) / maxc
    let rc := (maxc - r) / (maxc - minc)
    let gc := (maxc - g) / (maxc - minc)
    let bc := (maxc - b) / (maxc - minc)
    let h := if r = maxc then bc - gc
             else if g = maxc then 2 + rc - bc
             else 4 + gc - rc
    (Int.fract (h / 6), s, v)

/-- `rgb_to_hsv(r, g, b)` from color_converter.py:
`(int(h*360), int(s*100), int(v*100))`. -/
def rgb_to_hsv (r g b : ℕ) : ℤ × ℤ × ℤ :=
  let hsv := colorsysRgbToHsv ((r : ℚ) / 255) ((g : ℚ) / 255) ((b : ℚ) / 255)
  (pyTrunc (hsv.1 * 360), pyTrunc (hsv.2.1 * 100), pyTrunc (hsv.2.2 * 100))

/-- `colorsys.hsv_to_rgb` on [0,1]-normalized arguments. -/
def colorsysHsvToRgb (h s v : ℚ) : ℚ × ℚ × ℚ :=
  if s = 0 then (v, v, v)
  else
    let i := pyTrunc (h * 6)
    let f := h * 6 - i
    let p := v * (1 - s)
    let q := v * (1 - s * f)
    let t := v * (1 - s * (1 - f))
    let j := i % 6
    if j = 0 then (v, t, p)
    else if j = 1 then (q, v, p)
    else if j = 2 then (p, v, t)
    else if j = 3 then (p, q, v)
    else if j = 4 then (t, p, v)
    else if j = 5 then (v, p, q)
    else (0, 0, 0)

/-- `hsv_to_rgb(h, s, v)` from color_converter.py. -/
def hsv_to_rgb (h s v : ℤ) : ℤ × ℤ × ℤ :=
  let rgb := colorsysHsvToRgb ((h : ℚ) / 360) ((s : ℚ) / 100) ((v : ℚ) / 100)
  (pyTrunc (rgb.1 * 255), pyTrunc (rgb.2.1 * 255), pyTrunc (rgb.2.2 * 255))

/-- `colorsys.rgb_to_hls`. -/
def colorsysRgbToHls (r g b : ℚ) : ℚ × ℚ × ℚ :=
  let maxc := max r (max g b)
  let minc := min r (min g b)
  let l := (minc + maxc) / 2
  if minc = maxc then (0, l, 0)
  else
    let s := if l ≤ 1/2 then (maxc - minc) / (maxc + minc)
             else (maxc - minc) / (2 - maxc - minc)
    let rc := (maxc - r) / (maxc - minc)
    let gc := (maxc - g) / (maxc - minc)
    let bc := (maxc - b) / (maxc - minc)
    let h := if r = maxc then bc - gc
             else if g = maxc then 2 + rc - bc
             else 4 + gc - rc
    (Int.fract (h / 6), l, s)

/-- `rgb_to_hsl(r, g, b)` from color_converter.py:
`(int(h*360), int(s*100), int(l*100))`. -/
def rgb_to_hsl (r g b : ℕ) : ℤ × ℤ × ℤ :=
  let hls := colorsysRgbToHls ((r : ℚ) / 255) ((g : ℚ) / 255) ((b : ℚ) / 255)
  (pyTrunc (hls.1 * 360), pyTrunc (hls.2.2 * 100), pyTrunc (hls.2.1 * 100))

/-- `colorsys._v(m1, m2, hue)`. -/
def hlsValue (m1 m2 hue : ℚ) : ℚ :=
  let hue' := Int.fract hue
  if hue' < 1/6 then m1 + (m2 - m1) * hue' * 6
  else if hue' < 1/2 then m2
  else if hue' < 2/3 then m1 + (m2 - m1) * (2/3 - hue') * 6
  else m1

/-- `colorsys.hls_to_rgb`. -/
def colorsysHlsToRgb (h l s : ℚ) : ℚ × ℚ × ℚ :=
  if s = 0 then (l, l, l)
  else
    let m2 := if l ≤ 1/2 then l * (1 + s) else l + s - l * s
    let m1 := 2 * l - m2
    (hlsValue m1 m2 (h + 1/3), hlsValue m1 m2 h, hlsValue m1 m2 (h - 1/3))

/-- `hsl_to_rgb(h, s, l)` from color_converter.py (note the argument
order `hls_to_rgb(h/360, l/100, s/100)`). -/
def hsl_to_rgb (h s l : ℤ) : ℤ × ℤ × ℤ :=
  let rgb := colorsysHlsToRgb ((h : ℚ) / 360) ((l : ℚ) / 100) ((s : ℚ) / 100)
  (pyTrunc (rgb.1 * 255), pyTrunc (rgb.2.1 * 255), pyTrunc (rgb.2.2 * 255))

/-- `rgb_to_cmyk(r, g, b)` from color_converter.py, percentages. -/
def rgb_to_cmyk (r g b : ℕ) : ℤ × ℤ × ℤ × ℤ :=
  if r = 0 ∧ g = 0 ∧ b = 0 then (0, 0, 0, 100)
  else
    let c : ℚ := 1 - (r : ℚ) / 255
    let m : ℚ := 1 - (g : ℚ) / 255
    let y : ℚ := 1 - (b : ℚ) / 255
    let k : ℚ := min c (min m y)
    if k = 1 then (0, 0, 0, 100)
    else
      (pyTrunc ((c - k) / (1 - k) * 100),
       pyTrunc ((m - k) / (1 - k) * 100),
       pyTrunc ((y - k) / (1 - k) * 100),
       pyTrunc (k * 100))

/-- `cmyk_to_rgb(c, m, y, k)` from color_converter.py. -/
def cmyk_to_rgb (c m y k : ℤ) : ℤ × ℤ × ℤ :=
  (pyTrunc (255 * (1 - (c : ℚ) / 100) * (1 - (k : ℚ) / 100)),
   pyTrunc (255 * (1 - (m : ℚ) / 100) * (1 - (k : ℚ) / 100)),
   pyTrunc (255 * (1 - (y : ℚ) / 100) * (1 - (k : ℚ) / 100)))

/-- RGB → HSV → RGB. -/
def hsvRoundTrip (r g b : ℕ) : ℤ × ℤ × ℤ :=
  let hsv := rgb_to_hsv r g b
  hsv_to_rgb hsv.1 hsv.2.1 hsv.2.2

/-- RGB → HSL → RGB. -/
def hslRoundTrip (r g b : ℕ) : ℤ × ℤ × ℤ :=
  let hsl := rgb_to_hsl r g b
  hsl_to_rgb hsl.1 hsl.2.1 hsl.2.2

/-- RGB → CMYK → RGB. -/
def cmykRoundTrip (r g b : ℕ) : ℤ × ℤ × ℤ :=
  let cmyk := rgb_to_cmyk r g b
  cmyk_to_rgb cmyk.1 cmyk.2.1 cmyk.2.2.1 cmyk.2.2.2

/-- The per-triple property asserted by C3: every channel of all three
forward+inverse round trips drifts by at most one unit. -/
abbrev driftWithin1 (r g b : ℕ) : Prop :=
  (((r : ℤ) - (hsvRoundTrip r g b).1).natAbs ≤ 1 ∧
   ((g : ℤ) - (hsvRoundTrip r g b).2.1).natAbs ≤ 1 ∧
   ((b : ℤ) - (hsvRoundTrip r g b).2.2).natAbs ≤ 1) ∧
  (((r : ℤ) - (hslRoundTrip r g b).1).natAbs ≤ 1 ∧
   ((g : ℤ) - (hslRoundTrip r g b).2.1).natAbs ≤ 1 ∧
   ((b : ℤ) - (hslRoundTrip r g b).2.2).natAbs ≤ 1) ∧
  (((r : ℤ) - (cmykRoundTrip r g b).1).natAbs ≤ 1 ∧
   ((g : ℤ) - (cmykRoundTrip r g b).2.1).natAbs ≤ 1 ∧
   ((b : ℤ) - (cmykRoundTrip r g b).2.2).natAbs ≤ 1)

set_option maxRecDepth 8000 in
/-- Counterexample to C3: at (2,2,2) the HSV and HSL round trips return
(0,0,0), a drift of 2 per channel, and at (251,253,0) the CMYK round
trip returns (255,255,0), a drift of 4 on the red channel; the claimed
±1 bound fails. -/
theorem C3_drift_counterexample :
    ¬ driftWithin1 2 2 2 ∧ ¬ driftWithin1 251 253 0 ∧
    hsvRoundTrip 2 2 2 = (0, 0, 0) ∧ hslRoundTrip 2 2 2 = (0, 0, 0) ∧
    cmykRoundTrip 251 253 0 = (255, 255, 0) := by
  with_unfolding_all decide

lemma pyTrunc_eq_floor {q : ℚ} (h : 0 ≤ q) : pyTrunc q = ⌊q⌋ := if_pos h

lemma pyTrunc_zero : pyTrunc 0 = 0 := by
  rw [pyTrunc_eq_floor le_rfl, Int.floor_zero]

/-- The value a gray level x is mapped to by the HSV (and HSL) round
trip: the double truncation through the 0..100 percent scale. -/
def grayChan (x : ℕ) : ℤ :=
  pyTrunc ((pyTrunc ((x : ℚ) / 255 * 100) : ℚ) / 100 * 255)

lemma grayChan_bounds (x : ℕ) : (x : ℤ) - 3 ≤ grayChan x ∧ grayChan x ≤ x := by
  have hx0 : (0 : ℚ) ≤ (x : ℚ) / 255 * 100 := by positivity
  unfold grayChan
  rw [pyTrunc_eq_floor hx0]
  have hV0 : (0 : ℤ) ≤ ⌊(x : ℚ) / 255 * 100⌋ := Int.floor_nonneg.mpr hx0
  have hV1 : ((⌊(x : ℚ) / 255 * 100⌋ : ℤ) : ℚ) ≤ (x : ℚ) / 255 * 100 :=
    Int.floor_le _
  have hV2 : (x : ℚ) / 255 * 100 < (⌊(x : ℚ) / 255 * 100⌋ : ℚ) + 1 :=
    Int.lt_floor_add_one _
  have hV0' : (0 : ℚ) ≤ ((⌊(x : ℚ) / 255 * 100⌋ : ℤ) : ℚ) := by
    exact_mod_cast hV0
  have harg : (0 : ℚ) ≤ ((⌊(x : ℚ) / 255 * 100⌋ : ℤ) : ℚ) / 100 * 255 := by
    positivity
  rw [pyTrunc_eq_floor harg]
  constructor
  · rw [show (x : ℤ) - 3 = ((x : ℤ) - 3 : ℤ) from rfl]
    apply Int.le_floor.mpr
    push_cast
    linarith
  · have hle : ((⌊(x : ℚ) / 255 * 100⌋ : ℤ) : ℚ) / 100 * 255 ≤ (x : ℚ) := by
      linarith
    calc ⌊((⌊(x : ℚ) / 255 * 100⌋ : ℤ) : ℚ) / 100 * 255⌋
        ≤ ⌊(x : ℚ)⌋ := Int.floor_le_floor hle
      _ = x := Int.floor_natCast x

/-- On the gray axis the HSV round trip reduces to `grayChan`. -/
lemma hsvRoundTrip_gray (x : ℕ) :
    hsvRoundTrip x x x = (grayChan x, grayChan x, grayChan x) := by
  unfold hsvRoundTrip rgb_to_hsv colorsysRgbToHsv hsv_to_rgb colorsysHsvToRgb
  simp only [max_self, min_self, ite_true, eq_self_iff_true, if_pos rfl,
    zero_mul, pyTrunc_zero, Int.cast_zero, zero_div]
  norm_num [grayChan]

/-- On the gray axis the HSL round trip reduces to `grayChan` as well. -/
lemma hslRoundTrip_gray (x : ℕ) :
    hslRoundTrip x x x = (grayChan x, grayChan x, grayChan x) := by
  unfold hslRoundTrip rgb_to_hsl colorsysRgbToHls hsl_to_rgb colorsysHlsToRgb
  simp only [max_self, min_self, ite_true, eq_self_iff_true, if_pos rfl,
    zero_mul, pyTrunc_zero, Int.cast_zero, zero_div, add_self_div_two]
  norm_num [grayChan]

/-- The C channel percentage `int((c-k)/(1-k)*100)` expressed through
the maximum channel M. -/
def cmykChanPct (x M : ℕ) : ℤ :=
  pyTrunc (((M : ℚ) - x) / M * 100)

/-- The K percentage `int(k*100)` expressed through the maximum
channel M. -/
def cmykKPct (M : ℕ) : ℤ :=
  pyTrunc ((1 - (M : ℚ) / 255) * 100)

lemma min_one_sub (a b : ℚ) : min (1 - a) (1 - b) = 1 - max a b := by
  rcases le_total a b with h | h
  · rw [max_eq_right h, min_eq_right (by linarith)]
  · rw [max_eq_left h, min_eq_left (by linarith)]

/-- On a non-black triple, `rgb_to_cmyk` computes the per-channel
percentages through M = max(r, g, b). -/
lemma rgb_to_cmyk_eq (r g b : ℕ) (h : ¬(r = 0 ∧ g = 0 ∧ b = 0)) :
    rgb_to_cmyk r g b =
      (cmykChanPct r (max r (max g b)), cmykChanPct g (max r (max g b)),
       cmykChanPct b (max r (max g b)), cmykKPct (max r (max g b))) := by
  have hM : 0 < max r (max g b) := by
    rcases Nat.eq_zero_or_pos (max r (max g b)) with h0 | h0
    · exfalso
      rw [Nat.max_eq_zero_iff] at h0
      obtain ⟨h1, h2⟩ := h0
      rw [Nat.max_eq_zero_iff] at h2
      exact h ⟨h1, h2.1, h2.2⟩
    · exact h0
  have hMq : (0 : ℚ) < ((max r (max g b) : ℕ) : ℚ) := by exact_mod_cast hM
  have hMne : ((max r (max g b) : ℕ) : ℚ) ≠ 0 := ne_of_gt hMq
  have hmin : min (1 - (r : ℚ) / 255) (min (1 - (g : ℚ) / 255) (1 - (b : ℚ) / 255)) =
      1 - ((max r (max g b) : ℕ) : ℚ) / 255 := by
    rw [min_one_sub, min_one_sub]
    have hdiv : max ((r : ℚ) / 255) (max ((g : ℚ) / 255) ((b : ℚ) / 255)) =
        max (r : ℚ) (max (g : ℚ) (b : ℚ)) / 255 := by
      rw [max_div_div_right (by norm_num : (0 : ℚ) ≤ 255),
        max_div_div_right (by norm_num : (0 : ℚ) ≤ 255)]
    rw [hdiv]
    push_cast
    ring_nf
  have hk1 : 1 - ((max r (max g b) : ℕ) : ℚ) / 255 ≠ 1 := by
    intro hcon
    have : ((max r (max g b) : ℕ) : ℚ) / 255 = 0 := by linarith
    rw [div_eq_zero_iff] at this
    rcases this with h1 | h1
    · exact hMne h1
    · norm_num at h1
  have hchan : ∀ x : ℕ,
      ((1 - (x : ℚ) / 255) - (1 - ((max r (max g b) : ℕ) : ℚ) / 255)) /
        (1 - (1 - ((max r (max g b) : ℕ) : ℚ) / 255)) * 100 =
      (((max r (max g b) : ℕ) : ℚ) - x) / ((max r (max g b) : ℕ) : ℚ) * 100 := by
    intro x
    have e1 : (1 : ℚ) - (1 - ((max r (max g b) : ℕ) : ℚ) / 255) =
        ((max r (max g b) : ℕ) : ℚ) / 255 := by ring
    rw [e1]
    field_simp
  unfold rgb_to_cmyk
  rw [if_neg h]
  simp only [hmin]
  rw [if_neg hk1]
  unfold cmykChanPct cmykKPct
  rw [hchan r, hchan g, hchan b]

lemma cmyk_channel_bound (x M : ℕ) (hxM : x ≤ M) (hM : 0 < M)
    (hM2 : M ≤ 255) :
    (x : ℤ) ≤ pyTrunc (255 * (1 - ((cmykChanPct x M : ℤ) : ℚ) / 100) *
      (1 - ((cmykKPct M : ℤ) : ℚ) / 100)) ∧
    pyTrunc (255 * (1 - ((cmykChanPct x M : ℤ) : ℚ) / 100) *
      (1 - ((cmykKPct M : ℤ) : ℚ) / 100)) ≤ (x : ℤ) + 5 := by
  have hMq : (0 : ℚ) < (M : ℚ) := by exact_mod_cast hM
  have hMne : (M : ℚ) ≠ 0 := ne_of_gt hMq
  have hxq : (x : ℚ) ≤ (M : ℚ) := by exact_mod_cast hxM
  have hMq2 : (M : ℚ) ≤ 255 := by exact_mod_cast hM2
  have ha0 : (0 : ℚ) ≤ ((M : ℚ) - x) / M * 100 := by
    apply mul_nonneg _ (by norm_num)
    apply div_nonneg (by linarith) hMq.le
  have hb0 : (0 : ℚ) ≤ (1 - (M : ℚ) / 255) * 100 := by
    apply mul_nonneg _ (by norm_num)
    have : (M : ℚ) / 255 ≤ 1 := by
      rw [div_le_one (by norm_num : (0 : ℚ) < 255)]
      exact hMq2
    linarith
  have hCdef : cmykChanPct x M = ⌊((M : ℚ) - x) / M * 100⌋ := by
    unfold cmykChanPct
    exact pyTrunc_eq_floor ha0
  have hKdef : cmykKPct M = ⌊(1 - (M : ℚ) / 255) * 100⌋ := by
    unfold cmykKPct
    exact pyTrunc_eq_floor hb0
  have hu : ((M : ℚ) - x) / M = 1 - (x : ℚ) / M := by
    field_simp
  have hC1 : ((cmykChanPct x M : ℤ) : ℚ) ≤ (1 - (x : ℚ) / M) * 100 := by
    rw [hCdef, ← hu]
    exact Int.floor_le _
  have hC2 : (1 - (x : ℚ) / M) * 100 < ((cmykChanPct x M : ℤ) : ℚ) + 1 := by
    rw [hCdef, ← hu]
    exact Int.lt_floor_add_one _
  have hK1 : ((cmykKPct M : ℤ) : ℚ) ≤ (1 - (M : ℚ) / 255) * 100 := by
    rw [hKdef]
    exact Int.floor_le _
  have hK2 : (1 - (M : ℚ) / 255) * 100 < ((cmykKPct M : ℤ) : ℚ) + 1 := by
    rw [hKdef]
    exact Int.lt_floor_add_one _
  have hu0 : (0 : ℚ) ≤ (x : ℚ) / M := div_nonneg (by positivity) hMq.le
  have hu1 : (x : ℚ) / M ≤ 1 := by
    rw [div_le_one hMq]
    exact hxq
  have hv0 : (0 : ℚ) < (M : ℚ) / 255 := by positivity
  have hv1 : (M : ℚ) / 255 ≤ 1 := by
    rw [div_le_one (by norm_num : (0 : ℚ) < 255)]
    exact hMq2
  have f1 : (x : ℚ) / M ≤ 1 - ((cmykChanPct x M : ℤ) : ℚ) / 100 := by
    linarith
  have f2 : (M : ℚ) / 255 ≤ 1 - ((cmykKPct M : ℤ) : ℚ) / 100 := by
    linarith
  have g1 : 1 - ((cmykChanPct x M : ℤ) : ℚ) / 100 < (x : ℚ) / M + 1 / 100 := by
    linarith
  have g2 : 1 - ((cmykKPct M : ℤ) : ℚ) / 100 < (M : ℚ) / 255 + 1 / 100 := by
    linarith
  have huv : 255 * ((x : ℚ) / M) * ((M : ℚ) / 255) = x := by
    field_simp
  have hlo : (x : ℚ) ≤ 255 * (1 - ((cmykChanPct x M : ℤ) : ℚ) / 100) *
      (1 - ((cmykKPct M : ℤ) : ℚ) / 100) := by
    have hmul : ((x : ℚ) / M) * ((M : ℚ) / 255) ≤
        (1 - ((cmykChanPct x M : ℤ) : ℚ) / 100) *
        (1 - ((cmykKPct M : ℤ) : ℚ) / 100) :=
      mul_le_mul f1 f2 hv0.le (le_trans hu0 f1)
    nlinarith [hmul, huv]
  have hhi : 255 * (1 - ((cmykChanPct x M : ℤ) : ℚ) / 100) *
      (1 - ((cmykKPct M : ℤ) : ℚ) / 100) < (x : ℚ) + 6 := by
    have hstep : (1 - ((cmykChanPct x M : ℤ) : ℚ) / 100) *
        (1 - ((cmykKPct M : ℤ) : ℚ) / 100) <
        ((x : ℚ) / M + 1 / 100) * ((M : ℚ) / 255 + 1 / 100) := by
      nlinarith [f1, f2, g1, g2, hu0, hv0.le]
    nlinarith [hstep, huv, hu1, hv1, hu0, hv0.le]
  have hinner0 : (0 : ℚ) ≤ 255 * (1 - ((cmykChanPct x M : ℤ) : ℚ) / 100) *
      (1 - ((cmykKPct M : ℤ) : ℚ) / 100) := by
    have : (0 : ℚ) ≤ (x : ℚ) := by positivity
    linarith
  rw [pyTrunc_eq_floor hinner0]
  constructor
  · apply Int.le_floor.mpr
    push_cast
    exact hlo
  · have : ⌊255 * (1 - ((cmykChanPct x M : ℤ) : ℚ) / 100) *
        (1 - ((cmykKPct M : ℤ) : ℚ) / 100)⌋ < (x : ℤ) + 6 := by
      apply Int.floor_lt.mpr
      push_cast
      exact hhi
    omega

/-- C3 (amended): the round trips are lossy beyond ±1.  What holds: the
CMYK round trip never decreases a channel and overshoots by at most 5
units on every triple, and on the gray axis the HSV and HSL round trips
return the same gray level lowered by at most 3 units (the drift reaches
2 at (2,2,2) and 3 at (5,5,5), and 4 on the CMYK trip at (251,253,0),
so the claimed ±1 bound is irrecoverable). -/
theorem C3_lossy_round_trip_bounds :
    (∀ r g b : ℕ, r ≤ 255 → g ≤ 255 → b ≤ 255 →
      ((r : ℤ) ≤ (cmykRoundTrip r g b).1 ∧
        (cmykRoundTrip r g b).1 ≤ (r : ℤ) + 5) ∧
      ((g : ℤ) ≤ (cmykRoundTrip r g b).2.1 ∧
        (cmykRoundTrip r g b).2.1 ≤ (g : ℤ) + 5) ∧
      ((b : ℤ) ≤ (cmykRoundTrip r g b).2.2 ∧
        (cmykRoundTrip r g b).2.2 ≤ (b : ℤ) + 5)) ∧
    (∀ x : ℕ,
      hsvRoundTrip x x x = (grayChan x, grayChan x, grayChan x) ∧
      hslRoundTrip x x x = (grayChan x, grayChan x, grayChan x) ∧
      (x : ℤ) - 3 ≤ grayChan x ∧ grayChan x ≤ x) := by
  constructor
  · intro r g b hr hg hb
    by_cases h0 : r = 0 ∧ g = 0 ∧ b = 0
    · obtain ⟨rfl, rfl, rfl⟩ := h0
      have hz : cmykRoundTrip 0 0 0 = (0, 0, 0) := by
        unfold cmykRoundTrip rgb_to_cmyk cmyk_to_rgb
        norm_num [pyTrunc_zero]
      rw [hz]
      norm_num
    · have hM0 : 0 < max r (max g b) := by
        rcases Nat.eq_zero_or_pos (max r (max g b)) with hz | hz
        · exfalso
          rw [Nat.max_eq_zero_iff] at hz
          obtain ⟨h1, h2⟩ := hz
          rw [Nat.max_eq_zero_iff] at h2
          exact h0 ⟨h1, h2.1, h2.2⟩
        · exact hz
      have hMle : max r (max g b) ≤ 255 := max_le hr (max_le hg hb)
      unfold cmykRoundTrip
      rw [rgb_to_cmyk_eq r g b h0]
      unfold cmyk_to_rgb
      exact ⟨cmyk_channel_bound r _ (le_max_left _ _) hM0 hMle,
        cmyk_channel_bound g _
          (le_trans (le_max_left g b) (le_max_right r (max g b))) hM0 hMle,
        cmyk_channel_bound b _
          (le_trans (le_max_right g b) (le_max_right r (max g b))) hM0 hMle⟩
  · intro x
    exact ⟨hsvRoundTrip_gray x, hslRoundTrip_gray x,
      (grayChan_bounds x).1, (grayChan_bounds x).2⟩

/-- Witness for C3 at the triple (10,20,30) and gray level 7. -/
theorem C3_lossy_round_trip_bounds_witness :
    ((10 : ℤ) ≤ (cmykRoundTrip 10 20 30).1 ∧
      (cmykRoundTrip 10 20 30).1 ≤ (10 : ℤ) + 5) ∧
    hsvRoundTrip 7 7 7 = (grayChan 7, grayChan 7, grayChan 7) ∧
    (7 : ℤ) - 3 ≤ grayChan 7 :=
  ⟨(C3_lossy_round_trip_bounds.1 10 20 30 (by norm_num) (by norm_num)
      (by norm_num)).1,
   (C3_lossy_round_trip_bounds.2 7).1,
   (C3_lossy_round_trip_bounds.2 7).2.2.1⟩

/-! ## color_detector.py : get_average_color_in_region -/

/-- A pixel: an RGB triple. -/
abbrev Pixel := ℕ × ℕ × ℕ

/-- A pixel buffer: a list of rows (height x width, rectangular for a
numpy array). -/
abbrev Image := List (List Pixel)

/-- The effective [start, stop) bounds of numpy basic slicing `l[a:b]`
(unit step) on an axis of size n: a negative index is first shifted by
n, then both are clipped to [0, n]. -/
def npSliceBounds (n : ℕ) (a b : ℤ) : ℕ × ℕ :=
  let a' := if a < 0 then a + n else a
  let b' := if b < 0 then b + n else b
  ((min (max a' 0) (n : ℤ)).toNat, (min (max b' 0) (n : ℤ)).toNat)

/-- numpy basic slicing `l[a:b]` along one axis. -/
def npSlice {α : Type} (l : List α) (a b : ℤ) : List α :=
  let p := npSliceBounds l.length a b
  (l.drop p.1).take (p.2 - p.1)

/-- The width reported by `current_image.shape`. -/
def imageWidth (im : Image) : ℕ :=
  (im.head?.map List.length).getD 0

/-- The number of pixels of a region (`region.size` divided by the 3
channels). -/
def regionCount (region : List (List Pixel)) : ℕ :=
  (region.map List.length).sum

/-- The sum of one channel over a region. -/
def regionSum (f : Pixel → ℚ) (region : List (List Pixel)) : ℚ :=
  (region.map (fun row => (row.map f).sum)).sum

/-- `np.mean(region, axis=(0,1))` followed by `int(c)` per channel, and
the `region.size == 0 -> None` guard of the source. -/
def meanRegion (region : List (List Pixel)) : Option Pixel :=
  if regionCount region = 0 then none
  else
    some ((pyTrunc (regionSum (fun p => (p.1 : ℚ)) region /
        regionCount region)).toNat,
      (pyTrunc (regionSum (fun p => (p.2.1 : ℚ)) region /
        regionCount region)).toNat,
      (pyTrunc (regionSum (fun p => (p.2.2 : ℚ)) region /
        regionCount region)).toNat)

/-- `ColorDetector.get_average_color_in_region(x, y, radius)`: the
bounding box `[y_min:y_max, x_min:x_max]` taken with numpy slicing
semantics, then the per-channel mean. -/
def get_average_color_in_region (img : Option Image) (x y radius : ℤ) :
    Option Pixel :=
  match img with
  | none => none
  | some im =>
    let yMin := max 0 (y - radius)
    let yMax := min ((im.length : ℕ) : ℤ) (y + radius + 1)
    let xMin := max 0 (x - radius)
    let xMax := min ((imageWidth im : ℕ) : ℤ) (x + radius + 1)
    meanRegion ((npSlice im yMin yMax).map (fun row => npSlice row xMin xMax))

/-- Following the claim's words: the pixels of the axis-aligned box
[x-radius, x+radius] x [y-radius, y+radius] intersected with the image
bounds. -/
def boxRegion (im : Image) (x y radius : ℤ) : List (List Pixel) :=
  ((List.range im.length).filter
      (fun (i : ℕ) => decide (y - radius ≤ (i : ℤ) ∧ (i : ℤ) ≤ y + radius))).map
    (fun (i : ℕ) => ((List.range (imageWidth im)).filter
        (fun (j : ℕ) => decide (x - radius ≤ (j : ℤ) ∧ (j : ℤ) ≤ x + radius))).map
      (fun (j : ℕ) => (im.getD i []).getD j (0, 0, 0)))

/-- Following the claim's words: the per-channel mean, truncated to int,
over the clamped box, absent exactly when the box holds no pixel. -/
def boxAverage (im : Image) (x y radius : ℤ) : Option Pixel :=
  meanRegion (boxRegion im x y radius)

/-- The 1 x 10 demonstration image whose pixels are all (12, 0, 0). -/
def stripeImage : Image :=
  [[(12, 0, 0), (12, 0, 0), (12, 0, 0), (12, 0, 0), (12, 0, 0),
    (12, 0, 0), (12, 0, 0), (12, 0, 0), (12, 0, 0), (12, 0, 0)]]

/-- Counterexample to C9: at center x = -5, y = 0 with radius 1 on a
1 x 10 image, the clamped box [-6,-4] x [-1,1] contains no image pixel,
so per the claim the result must be absent; but `x_max = min(10, -4)`
is negative and numpy slicing wraps it to column 6, so the code averages
columns 0..5 of row 0 and returns their color. -/
theorem C9_region_counterexample :
    boxAverage stripeImage (-5) 0 1 = none ∧
    get_average_color_in_region (some stripeImage) (-5) 0 1 =
      some (12, 0, 0) := by
  with_unfolding_all decide

lemma take_eq_map_range {α : Type} (d : α) :
    ∀ (l : List α) (c : ℕ),
      l.take c = (List.range (min c l.length)).map (fun i => l.getD i d)
  | [], c => by simp
  | x :: t, 0 => by simp
  | x :: t, c + 1 => by
    have ih := take_eq_map_range d t c
    rw [List.take_succ_cons, ih]
    have hmin : min (c + 1) (List.length (x :: t)) = min c t.length + 1 := by
      simp only [List.length_cons]
      omega
    rw [hmin, List.range_succ_eq_map, List.map_cons, List.map_map,
      List.getD_cons_zero]
    congr 1

lemma getD_drop {α : Type} (l : List α) (d : α) (a i : ℕ) :
    (l.drop a).getD i d = l.getD (a + i) d := by
  simp [List.getD_eq_getElem?_getD, List.getElem?_drop]

lemma slice_eq_map_range {α : Type} (l : List α) (d : α) (a b : ℕ) :
    (l.drop a).take (b - a) =
      (List.range (min (b - a) (l.length - a))).map
        (fun i => l.getD (a + i) d) := by
  rw [take_eq_map_range d (l.drop a) (b - a), List.length_drop]
  apply List.map_congr_left
  intro i hi
  exact getD_drop l d a i

lemma filter_range_eq_map (n lo hi : ℕ) :
    (List.range n).filter (fun (i : ℕ) => decide (lo ≤ i ∧ i < hi)) =
      (List.range (min (hi - lo) (n - lo))).map (fun i => lo + i) := by
  induction n with
  | zero => simp
  | succ m ih =>
    rw [List.range_succ, List.filter_append, ih]
    by_cases hm : lo ≤ m ∧ m < hi
    · have hcount : min (hi - lo) (m + 1 - lo) = min (hi - lo) (m - lo) + 1 := by
        omega
      have hfl : List.filter (fun (i : ℕ) => decide (lo ≤ i ∧ i < hi)) [m] = [m] := by
        simp [hm]
      rw [hfl, hcount, List.range_succ, List.map_append]
      congr 1
      have hlm : lo + min (hi - lo) (m - lo) = m := by omega
      simp [hlm]
    · have hfl : List.filter (fun (i : ℕ) => decide (lo ≤ i ∧ i < hi)) [m] = [] := by
        simp only [List.filter_cons, List.filter_nil]
        rw [if_neg (by simpa using hm)]
      rw [hfl, List.append_nil]
      have hsame : min (hi - lo) (m + 1 - lo) = min (hi - lo) (m - lo) := by
        omega
      rw [hsame]

/-- With a nonnegative stop index, numpy slicing of the clamped window
[max 0 (c-radius), min n (c+radius+1)) agrees with filtering the index
range by membership in the box [c-radius, c+radius]. -/
lemma npSlice_eq_box_filter {α : Type} (l : List α) (d : α) (c radius : ℤ)
    (hno : 0 ≤ c + radius + 1) :
    npSlice l (max 0 (c - radius)) (min ((l.length : ℕ) : ℤ) (c + radius + 1)) =
      ((List.range l.length).filter
        (fun (i : ℕ) => decide (c - radius ≤ (i : ℤ) ∧ (i : ℤ) ≤ c + radius))).map
        (fun i => l.getD i d) := by
  have ha : (0 : ℤ) ≤ max 0 (c - radius) := le_max_left _ _
  have hb0 : (0 : ℤ) ≤ min ((l.length : ℕ) : ℤ) (c + radius + 1) :=
    le_min (Int.natCast_nonneg _) hno
  have hbn : min ((l.length : ℕ) : ℤ) (c + radius + 1) ≤ (l.length : ℤ) :=
    min_le_left _ _
  have hbounds : npSliceBounds l.length (max 0 (c - radius))
      (min ((l.length : ℕ) : ℤ) (c + radius + 1)) =
      ((min (max 0 (c - radius)) ((l.length : ℕ) : ℤ)).toNat,
       (min ((l.length : ℕ) : ℤ) (c + radius + 1)).toNat) := by
    simp only [npSliceBounds, if_neg (not_lt.mpr ha), if_neg (not_lt.mpr hb0)]
    rw [max_eq_left ha, max_eq_left hb0, min_eq_left hbn]
  rw [npSlice, hbounds]
  have hcongr : (List.range l.length).filter
      (fun (i : ℕ) => decide (c - radius ≤ (i : ℤ) ∧ (i : ℤ) ≤ c + radius)) =
      (List.range l.length).filter
      (fun (i : ℕ) => decide ((max 0 (c - radius)).toNat ≤ i ∧
        i < (min ((l.length : ℕ) : ℤ) (c + radius + 1)).toNat)) := by
    apply List.filter_congr
    intro i hi
    rw [List.mem_range] at hi
    rw [decide_eq_decide]
    omega
  rw [hcongr, filter_range_eq_map,
    slice_eq_map_range l d ((min (max 0 (c - radius)) ((l.length : ℕ) : ℤ)).toNat)
      ((min ((l.length : ℕ) : ℤ) (c + radius + 1)).toNat), List.map_map]
  by_cases hcase : (max 0 (c - radius)).toNat ≤ l.length
  · have h1 : (min (max 0 (c - radius)) ((l.length : ℕ) : ℤ)).toNat =
        (max 0 (c - radius)).toNat := by omega
    rw [h1]
    rfl
  · have h1 : (min (max 0 (c - radius)) ((l.length : ℕ) : ℤ)).toNat = l.length := by
      omega
    have h2 : min ((min ((l.length : ℕ) : ℤ) (c + radius + 1)).toNat - l.length)
        (l.length - l.length) = 0 := by omega
    have h3 : min ((min ((l.length : ℕ) : ℤ) (c + radius + 1)).toNat -
        (max 0 (c - radius)).toNat) (l.length - (max 0 (c - radius)).toNat) = 0 := by
      omega
    rw [h1, h2, h3]
    rfl

lemma meanRegion_single (p : Pixel) : meanRegion [[p]] = some p := by
  obtain ⟨p1, p2, p3⟩ := p
  unfold meanRegion regionCount regionSum
  simp only [List.map_cons, List.map_nil, List.length_cons, List.length_nil,
    List.sum_cons, List.sum_nil]
  norm_num
  refine ⟨?_, ?_, ?_⟩ <;>
    rw [pyTrunc_eq_floor (Nat.cast_nonneg _), Int.floor_natCast,
      Int.toNat_natCast]

/-- C9 (amended): provided the slice stops `x+radius+1` and `y+radius+1`
are nonnegative (so numpy's negative-index wraparound is not triggered)
and the buffer is rectangular, `get_average_color_in_region` returns the
per-channel truncated mean over the axis-aligned clamped box — absent
exactly when the clamped box contains no pixel — and at radius 0 on an
in-bounds point it returns exactly that pixel's color. -/
theorem C9_region_box_average (im : Image) (x y radius : ℤ)
    (hrect : ∀ row ∈ im, row.length = imageWidth im)
    (hx : 0 ≤ x + radius + 1) (hy : 0 ≤ y + radius + 1) :
    get_average_color_in_region (some im) x y radius = boxAverage im x y radius ∧
    (get_average_color_in_region (some im) x y radius = none ↔
      ((List.range im.length).filter
        (fun (i : ℕ) => decide (y - radius ≤ (i : ℤ) ∧ (i : ℤ) ≤ y + radius)) = [] ∨
       (List.range (imageWidth im)).filter
        (fun (j : ℕ) => decide (x - radius ≤ (j : ℤ) ∧ (j : ℤ) ≤ x + radius)) = [])) ∧
    (radius = 0 → 0 ≤ y → y < (im.length : ℤ) → 0 ≤ x → x < (imageWidth im : ℤ) →
      get_average_color_in_region (some im) x y radius =
        some ((im.getD y.toNat []).getD x.toNat (0, 0, 0))) := by
  have hmain : get_average_color_in_region (some im) x y radius =
      boxAverage im x y radius := by
    show meanRegion _ = meanRegion _
    congr 1
    rw [npSlice_eq_box_filter im [] y radius hy, List.map_map]
    unfold boxRegion
    apply List.map_congr_left
    intro i hi
    rw [List.mem_filter, List.mem_range] at hi
    have hmem : im.getD i [] ∈ im := by
      rw [List.getD_eq_getElem?_getD, List.getElem?_eq_getElem hi.1]
      exact List.getElem_mem _
    have hw : (im.getD i []).length = imageWidth im := hrect _ hmem
    simp only [Function.comp_apply]
    rw [← hw]
    exact npSlice_eq_box_filter (im.getD i []) (0, 0, 0) x radius hx
  refine ⟨hmain, ?_, ?_⟩
  · rw [hmain]
    unfold boxAverage meanRegion
    have hcount : regionCount (boxRegion im x y radius) =
        ((List.range im.length).filter
          (fun (i : ℕ) => decide (y - radius ≤ (i : ℤ) ∧ (i : ℤ) ≤ y + radius))).length *
        ((List.range (imageWidth im)).filter
          (fun (j : ℕ) => decide (x - radius ≤ (j : ℤ) ∧ (j : ℤ) ≤ x + radius))).length := by
      unfold regionCount boxRegion
      rw [List.map_map]
      have : (List.length ∘ fun (i : ℕ) =>
          ((List.range (imageWidth im)).filter
            (fun (j : ℕ) => decide (x - radius ≤ (j : ℤ) ∧ (j : ℤ) ≤ x + radius))).map
            (fun (j : ℕ) => (im.getD i []).getD j (0, 0, 0))) =
          fun _ => ((List.range (imageWidth im)).filter
            (fun (j : ℕ) => decide (x - radius ≤ (j : ℤ) ∧ (j : ℤ) ≤ x + radius))).length := by
        funext i
        simp
      rw [this, List.map_const', List.sum_replicate, smul_eq_mul]
    rw [hcount]
    by_cases hz : ((List.range im.length).filter
        (fun (i : ℕ) => decide (y - radius ≤ (i : ℤ) ∧ (i : ℤ) ≤ y + radius))).length *
        ((List.range (imageWidth im)).filter
        (fun (j : ℕ) => decide (x - radius ≤ (j : ℤ) ∧ (j : ℤ) ≤ x + radius))).length = 0
    · rw [if_pos hz]
      refine iff_of_true rfl ?_
      rcases Nat.mul_eq_zero.mp hz with h | h
      · exact Or.inl (List.length_eq_zero.mp h)
      · exact Or.inr (List.length_eq_zero.mp h)
    · rw [if_neg hz]
      apply iff_of_false
      · simp
      · intro hor
        apply hz
        rcases hor with h | h
        · rw [h, List.length_nil, Nat.zero_mul]
        · rw [h, List.length_nil, Nat.mul_zero]
  · rintro rfl hy0 hyh hx0 hxw
    rw [hmain]
    have hrows : (List.range im.length).filter
        (fun (i : ℕ) => decide (y - 0 ≤ (i : ℤ) ∧ (i : ℤ) ≤ y + 0)) = [y.toNat] := by
      have hc : (List.range im.length).filter
          (fun (i : ℕ) => decide (y - 0 ≤ (i : ℤ) ∧ (i : ℤ) ≤ y + 0)) =
          (List.range im.length).filter
          (fun (i : ℕ) => decide (y.toNat ≤ i ∧ i < y.toNat + 1)) := by
        apply List.filter_congr
        intro i hi
        rw [List.mem_range] at hi
        rw [decide_eq_decide]
        omega
      rw [hc, filter_range_eq_map]
      have h1 : min (y.toNat + 1 - y.toNat) (im.length - y.toNat) = 1 := by omega
      rw [h1]
      rfl
    have hcols : (List.range (imageWidth im)).filter
        (fun (j : ℕ) => decide (x - 0 ≤ (j : ℤ) ∧ (j : ℤ) ≤ x + 0)) = [x.toNat] := by
      have hc : (List.range (imageWidth im)).filter
          (fun (j : ℕ) => decide (x - 0 ≤ (j : ℤ) ∧ (j : ℤ) ≤ x + 0)) =
          (List.range (imageWidth im)).filter
          (fun (j : ℕ) => decide (x.toNat ≤ j ∧ j < x.toNat + 1)) := by
        apply List.filter_congr
        intro j hj
        rw [List.mem_range] at hj
        rw [decide_eq_decide]
        omega
      rw [hc, filter_range_eq_map]
      have h1 : min (x.toNat + 1 - x.toNat) (imageWidth im - x.toNat) = 1 := by omega
      rw [h1]
      rfl
    unfold boxAverage boxRegion
    rw [hrows, hcols]
    simp only [List.map_cons, List.map_nil]
    exact meanRegion_single _

/-- Witness for C9 on the 1 x 10 image at center (2,0), radius 1. -/
theorem C9_region_box_average_witness :
    get_average_color_in_region (some stripeImage) 2 0 1 =
      boxAverage stripeImage 2 0 1 :=
  (C9_region_box_average stripeImage 2 0 1 (by decide) (by decide)
    (by decide)).1

/-! ## color_detector.py : extract_dominant_colors -/

/-- A legitimate outcome of `np.random.choice(n, size, replace=False)`:
`size` distinct indices below `n`.  The call in the source draws from
the global, unseeded numpy generator, so the chosen index list is an
ambient input of the computation, not a function of the arguments. -/
abbrev validSampleIdx (n size : ℕ) (idx : List ℕ) : Prop :=
  idx.length = size ∧ idx.Nodup ∧ ∀ i ∈ idx, i < n

/-- Squared distance in RGB space between float pixels. -/
def qdist2 (p c : ℚ × ℚ × ℚ) : ℚ :=
  (p.1 - c.1) ^ 2 + (p.2.1 - c.2.1) ^ 2 + (p.2.2 - c.2.2) ^ 2

def bestIndexAux (p : ℚ × ℚ × ℚ) :
    List (ℚ × ℚ × ℚ) → ℕ → ℕ → ℚ → ℕ
  | [], _, bi, _ => bi
  | c :: t, i, bi, bd =>
    if qdist2 p c < bd then bestIndexAux p t (i + 1) i (qdist2 p c)
    else bestIndexAux p t (i + 1) bi bd

/-- The index of the nearest centroid (first occurrence on ties). -/
def bestIndex (p : ℚ × ℚ × ℚ) (cs : List (ℚ × ℚ × ℚ)) : ℕ :=
  match cs with
  | [] => 0
  | c :: t => bestIndexAux p t 1 0 (qdist2 p c)

/-- The mean of a cluster's members (a centroid keeps its position when
no point is assigned to it). -/
def clusterMean (ps : List (ℚ × ℚ × ℚ)) (old : ℚ × ℚ × ℚ) : ℚ × ℚ × ℚ :=
  if ps.length = 0 then old
  else ((ps.map (fun p => p.1)).sum / ps.length,
    (ps.map (fun p => p.2.1)).sum / ps.length,
    (ps.map (fun p => p.2.2)).sum / ps.length)

/-- One Lloyd iteration: reassign every point to its nearest centroid
and move each centroid to its cluster's mean. -/
def lloydStep (ps cs : List (ℚ × ℚ × ℚ)) : List (ℚ × ℚ × ℚ) :=
  List.mapIdx (fun j c => clusterMean
    (ps.filter (fun p => bestIndex p cs == j)) c) cs

def kmeansIter : ℕ → List (ℚ × ℚ × ℚ) → List (ℚ × ℚ × ℚ) →
    List (ℚ × ℚ × ℚ)
  | 0, _, cs => cs
  | n + 1, ps, cs => kmeansIter n ps (lloydStep ps cs)

/-- Modelled from the spec: `sklearn.cluster.KMeans(n_clusters=k,
random_state=42, n_init=10).fit` is library code not in this
repository; the spec's determinism contract ("same input buffer + same
cap ⇒ identical clustering result", fixed seed, deterministic
multi-restart policy) makes it a deterministic function of the sampled
pixel list and K.  It is modelled here as deterministic Lloyd iteration
from a deterministic initialization, returning the centroids and the
per-pixel labels. -/
def kmeansFit (ps : List (ℚ × ℚ × ℚ)) (k : ℕ) :
    List (ℚ × ℚ × ℚ) × List ℕ :=
  let cs := kmeansIter 10 ps (ps.take k)
  (cs, ps.map (fun p => bestIndex p cs))

/-- `np.unique(labels, return_counts=True)`: the sorted distinct label
values paired with their multiplicities. -/
def uniqueCounts (labels : List ℕ) : List (ℕ × ℕ) :=
  ((List.range (labels.foldr max 0 + 1)).filter
    (fun v => labels.count v != 0)).map (fun v => (v, labels.count v))

/-- One entry of the result list: the dict
`{rgb, percentage, count}`; `clusterIdx` records the position `i` of
the `enumerate(zip(colors, percentages))` loop that built it. -/
structure DomColor where
  rgb : ℤ × ℤ × ℤ
  percentage : ℚ
  count : ℕ
  clusterIdx : ℕ
deriving DecidableEq

/-- `enumerate` starting at a given index. -/
def withIdx {α : Type} : ℕ → List α → List (ℕ × α)
  | _, [] => []
  | i, x :: t => (i, x) :: withIdx (i + 1) t

/-- Insertion keeping the list sorted by percentage descending; an
element is placed after every element with a greater-or-equal key, which
is the stability guarantee of Python's `list.sort(reverse=True)`. -/
def insertDom (a : DomColor) : List DomColor → List DomColor
  | [] => [a]
  | b :: t => if b.percentage ≤ a.percentage then a :: b :: t
      else b :: insertDom a t

/-- `results.sort(key=lambda x: x['percentage'], reverse=True)`: a
stable descending sort by percentage. -/
def sortDom : List DomColor → List DomColor
  | [] => []
  | x :: t => insertDom x (sortDom t)

/-- `ColorDetector.extract_dominant_colors(n_colors, sample_size)`.
The ambient numpy RNG outcome used by the subsampling step is the
explicit argument `sampleIdx`; it is consulted only when the pixel
count exceeds `sample_size`. -/
def extract_dominant_colors (img : Option Image) (n_colors sample_size : ℕ)
    (sampleIdx : List ℕ) : List DomColor :=
  match img with
  | none => []
  | some im =>
    let pixels := im.flatten
    let sampled := if sample_size < pixels.length then
        sampleIdx.map (fun i => pixels.getD i (0, 0, 0))
      else pixels
    let fl := sampled.map (fun p => ((p.1 : ℚ), (p.2.1 : ℚ), (p.2.2 : ℚ)))
    let fit := kmeansFit fl n_colors
    let counts := (uniqueCounts fit.2).map (fun pr => pr.2)
    let percentages := counts.map (fun c => (c : ℚ) / fit.2.length * 100)
    sortDom ((withIdx 0 (fit.1.zip percentages)).map (fun ip =>
      ⟨(pyTrunc ip.2.1.1, pyTrunc ip.2.1.2.1, pyTrunc ip.2.1.2.2),
       pyRound1 ip.2.2, counts.getD ip.1 0, ip.1⟩))

/-- The 1 x 3 demonstration buffer (two black pixels and one red-ish
pixel). -/
def demoImage : Image := [[(0, 0, 0), (0, 0, 0), (90, 0, 0)]]

/-- Counterexample to C2: on the same 3-pixel buffer with K = 1 and
cap = 2, two legitimate outcomes of the unseeded `np.random.choice`
subsampling give different results (centroid (0,0,0) vs (45,0,0)); the
fixed seed 42 governs only the KMeans step, not the subsampling. -/
theorem C2_extract_counterexample :
    validSampleIdx 3 2 [0, 1] ∧ validSampleIdx 3 2 [1, 2] ∧
    extract_dominant_colors (some demoImage) 1 2 [0, 1] ≠
      extract_dominant_colors (some demoImage) 1 2 [1, 2] := by
  with_unfolding_all decide

/-- C2 (amended): the computation after sampling is a function of its
arguments, so when the pixel count does not exceed the cap (no
subsampling) two invocations agree for any ambient RNG outcomes; and
extraction on an absent image returns the empty sequence.  When
subsampling occurs the result depends on the unseeded global numpy
generator (see the counterexample), so run-to-run determinism fails
there. -/
theorem C2_extract_deterministic :
    (∀ (im : Image) (k cap : ℕ) (idx1 idx2 : List ℕ),
      im.flatten.length ≤ cap →
      extract_dominant_colors (some im) k cap idx1 =
        extract_dominant_colors (some im) k cap idx2) ∧
    (∀ (k cap : ℕ) (idx : List ℕ),
      extract_dominant_colors none k cap idx = []) := by
  constructor
  · intro im k cap idx1 idx2 h
    simp only [extract_dominant_colors]
    rw [if_neg (not_lt.mpr h), if_neg (not_lt.mpr h)]
  · intro k cap idx
    rfl

/-- Witness for C2 on the 3-pixel buffer with cap 5 (no subsampling). -/
theorem C2_extract_deterministic_witness :
    extract_dominant_colors (some demoImage) 1 5 [0, 1] =
      extract_dominant_colors (some demoImage) 1 5 [1, 2] :=
  C2_extract_deterministic.1 demoImage 1 5 [0, 1] [1, 2] (by decide)

/-- The strict order C10 asserts on the output sequence: descending by
percentage, ties by ascending original cluster index. -/
def DomOrder (a b : DomColor) : Prop :=
  b.percentage < a.percentage ∨
    (a.percentage = b.percentage ∧ a.clusterIdx < b.clusterIdx)

lemma mem_insertDom (a c : DomColor) :
    ∀ l, c ∈ insertDom a l ↔ c = a ∨ c ∈ l
  | [] => by simp [insertDom]
  | b :: t => by
    rw [insertDom]
    split_ifs with h
    · simp
    · rw [List.mem_cons, mem_insertDom a c t, List.mem_cons]
      tauto

lemma mem_sortDom (c : DomColor) :
    ∀ l, c ∈ sortDom l ↔ c ∈ l
  | [] => Iff.rfl
  | x :: t => by
    rw [sortDom, mem_insertDom, mem_sortDom c t, List.mem_cons]

lemma pairwise_insertDom (a : DomColor) :
    ∀ l, List.Pairwise DomOrder l →
      (∀ b ∈ l, a.clusterIdx < b.clusterIdx) →
      List.Pairwise DomOrder (insertDom a l)
  | [], _, _ => List.pairwise_singleton _ _
  | b :: t, hl, ha => by
    rw [insertDom]
    rw [List.pairwise_cons] at hl
    split_ifs with h
    · rw [List.pairwise_cons]
      refine ⟨?_, List.pairwise_cons.mpr hl⟩
      intro c hc
      rcases List.mem_cons.mp hc with rfl | hc
      · rcases lt_or_eq_of_le h with h' | h'
        · exact Or.inl h'
        · exact Or.inr ⟨h'.symm, ha c (List.mem_cons_self c t)⟩
      · rcases hl.1 c hc with h' | h'
        · exact Or.inl (lt_of_lt_of_le h' h)
        · rcases lt_or_eq_of_le h with h'' | h''
          · exact Or.inl (lt_of_le_of_lt (le_of_eq h'.1.symm) h'')
          · exact Or.inr ⟨h''.symm.trans h'.1,
              ha c (List.mem_cons_of_mem b hc)⟩
    · rw [List.pairwise_cons]
      constructor
      · intro c hc
        rcases (mem_insertDom a c t).mp hc with rfl | hc
        · exact Or.inl (not_le.mp h)
        · exact hl.1 c hc
      · exact pairwise_insertDom a t hl.2
          (fun c hc => ha c (List.mem_cons_of_mem b hc))

lemma pairwise_sortDom :
    ∀ l, List.Pairwise (fun p q : DomColor => p.clusterIdx < q.clusterIdx) l →
      List.Pairwise DomOrder (sortDom l)
  | [], _ => List.Pairwise.nil
  | x :: t, h => by
    rw [sortDom]
    rw [List.pairwise_cons] at h
    exact pairwise_insertDom x (sortDom t) (pairwise_sortDom t h.2)
      (fun b hb => h.1 b ((mem_sortDom b t).mp hb))

lemma withIdx_fst_ge {α : Type} :
    ∀ (l : List α) (i : ℕ) (p : ℕ × α), p ∈ withIdx i l → i ≤ p.1
  | [], _, _, h => absurd h (List.not_mem_nil _)
  | x :: t, i, p, h => by
    rw [withIdx] at h
    rcases List.mem_cons.mp h with rfl | h
    · exact le_refl _
    · exact le_trans (Nat.le_succ i) (withIdx_fst_ge t (i + 1) p h)

lemma withIdx_pairwise {α : Type} :
    ∀ (l : List α) (i : ℕ),
      List.Pairwise (fun p q : ℕ × α => p.1 < q.1) (withIdx i l)
  | [], _ => List.Pairwise.nil
  | x :: t, i => by
    rw [withIdx, List.pairwise_cons]
    exact ⟨fun p hp => lt_of_lt_of_le (Nat.lt_succ_self i)
        (withIdx_fst_ge t (i + 1) p hp),
      withIdx_pairwise t (i + 1)⟩

/-- C10: the sequence returned by `extract_dominant_colors` is sorted
by percentage in descending order, and entries with equal percentage
appear in ascending original cluster order (the stable sort of the
source). -/
theorem C10_dominant_sorted (img : Option Image) (k cap : ℕ)
    (sampleIdx : List ℕ) :
    List.Pairwise DomOrder (extract_dominant_colors img k cap sampleIdx) := by
  cases img with
  | none => exact List.Pairwise.nil
  | some im =>
    show List.Pairwise DomOrder (sortDom _)
    apply pairwise_sortDom
    apply List.Pairwise.map
    · intro a b hab
      exact hab
    · exact withIdx_pairwise _ 0
